import Mathlib

/-!
Verification of the entity-consolidation and redaction-application engine of
the `pii-redactor` backend (Python), via a shallow embedding in Lean 4.

Source files embedded here:
* `backend/app/services/pii_detection_service.py`
  (`_merge_overlapping_entities`, `_deduplicate_by_method`,
  `_filter_header_labels`)
* `backend/app/services/redaction_service.py`
  (`redact_document`, `apply_redactions_to_pdf`, `_redact_image`)
* `backend/app/api/documents.py` (redaction-history update in
  `apply_redaction`)

Modelling conventions:
* Python `float` confidences are embedded as `ℚ`; the code only ever
  compares confidences (never does arithmetic on them), and every literal
  in scope (0.85, 0.9, 0.95, ...) is exactly representable, so comparisons
  agree with IEEE-754 doubles.
* Character predicates (`str.isspace`, `str.isdigit`, `str.lower`, `\w`,
  `\s`) are modelled over their ASCII behaviour, which is exact for the
  ASCII strings appearing in the deny-lists and regexes of the source.
* Text positions `start_pos` / `end_pos` are embedded as `Int` so that the
  source's `existing['start_pos'] - 2` arithmetic is literal.
-/

namespace PiiRedactor

/-- Python whitespace characters stripped by `str.strip()` (ASCII subset:
space, tab, newline, vertical tab, form feed, carriage return). -/
def pyIsSpaceChar (c : Char) : Bool :=
  c == ' ' || c == Char.ofNat 9 || c == Char.ofNat 10 || c == Char.ofNat 11 ||
  c == Char.ofNat 12 || c == Char.ofNat 13

/-- Python `str.strip()`: drop leading and trailing whitespace. -/
def pyStrip (s : String) : String :=
  String.mk (((s.data.dropWhile pyIsSpaceChar).reverse.dropWhile pyIsSpaceChar).reverse)

/-- Python `str.lower()` (ASCII model). -/
def pyLower (s : String) : String :=
  String.mk (s.data.map Char.toLower)

/-- Python `str.isdigit()` (ASCII model): nonempty and all digits. -/
def pyIsDigitStr (s : String) : Bool :=
  !s.data.isEmpty && s.data.all Char.isDigit

/-- Numeric value of a digit string (base 10). -/
def natOfDigits (l : List Char) : Nat :=
  l.foldl (fun n c => 10 * n + (c.toNat - 48)) 0

/-- A geometric rectangle `{x, y, width, height}` as used for bounding
boxes and custom redaction regions. -/
structure Rect where
  x : Int
  y : Int
  w : Int
  h : Int
deriving DecidableEq

/-- An entity dict as produced by the detectors and consumed by the
consolidation pipeline and the redaction applicator.  `method` is one of
the source's strings `"regex"` (PATTERN), `"spacy"` (STATISTICAL_NER),
`"huggingface"` (TRANSFORMER_NER), `"manual"` (MANUAL). -/
structure Entity where
  id : String
  text : String
  label : String
  confidence : ℚ
  startPos : Int
  endPos : Int
  method : String
  bbox : Option Rect
deriving DecidableEq

/-! ## `_merge_overlapping_entities` (pii_detection_service.py, 485-562) -/

/-- The duplicate-detection key `f"{entity['text'].lower().strip()}:{entity['label']}"`. -/
def mergeKey (e : Entity) : String :=
  pyStrip (pyLower e.text) ++ ":" ++ e.label

/-- Stable insertion of one entity into a list sorted ascending by
`start_pos` (the entity goes before the first element with a strictly
larger start, and before equal-start elements inserted from further right,
matching Python's stable `list.sort(key=lambda x: x['start_pos'])`). -/
def insertByStart (e : Entity) : List Entity → List Entity
  | [] => [e]
  | x :: xs => if e.startPos ≤ x.startPos then e :: x :: xs else x :: insertByStart e xs

/-- Stable sort ascending by `start_pos`. -/
def pySortByStart (l : List Entity) : List Entity :=
  l.foldr insertByStart []

/-- The scan of the current `merged` list performed for one incoming
entity (the `for existing in merged` loop, lines 524-555): returns `none`
when no branch fires for any element (entity will be appended),
`some none` when a branch fires and the incoming entity is dropped, and
`some (some victim)` when the overlap branch fires with
`should_replace = True`, in which case `victim` is removed and the
incoming entity appended. -/
def overlapScan (e : Entity) : List Entity → Option (Option Entity)
  | [] => none
  | x :: xs =>
    if e.label = x.label ∧ pyLower e.text = pyLower x.text then
      -- position-variance branch (same text and label)
      if (e.startPos - x.startPos).natAbs ≤ 5 then some none
      else overlapScan e xs
    else if e.startPos ≤ x.endPos + 2 ∧ x.startPos - 2 ≤ e.startPos then
      -- overlap branch: regex preference for the *incoming* entity, else
      -- strictly-higher confidence replaces
      if (e.method = "regex" ∧ x.method ≠ "regex") ∨ x.confidence < e.confidence
      then some (some x) else some none
    else overlapScan e xs

/-- Lookup in the `seen_text` dict (modelled as an association list with
newest binding first, so shadowing reproduces dict overwrite). -/
def seenFind (m : List (String × Entity)) (k : String) : Option Entity :=
  (m.find? (fun p => p.1 == k)).map Prod.snd

/-- One iteration of the main loop of `_merge_overlapping_entities` for one
incoming entity.  The duplicate branch (lines 505-521) fires when the
entity's key is in `seen_text` — note the stale entry is consulted even if
the recorded entity was meanwhile removed from `merged`, and a
higher-confidence duplicate is re-appended *without* any overlap check. -/
def mergeStep (st : List Entity × List (String × Entity)) (e : Entity) :
    List Entity × List (String × Entity) :=
  let merged := st.1
  let seen := st.2
  let k := mergeKey e
  match seenFind seen k with
  | some old =>
    if old.confidence < e.confidence then
      ((merged.filter (fun x => mergeKey x != k)) ++ [e], (k, e) :: seen)
    else
      (merged, seen)
  | none =>
    match overlapScan e merged with
    | some (some victim) =>
      ((merged.filter (fun x => x != victim)) ++ [e], (mergeKey e, e) :: seen)
    | some none => (merged, seen)
    | none => (merged ++ [e], (k, e) :: seen)

/-- `_merge_overlapping_entities`: sort by start position, then fold the
per-entity merge step. -/
def mergeOverlapping (l : List Entity) : List Entity :=
  ((pySortByStart l).foldl mergeStep ([], [])).1

/-! ## `_deduplicate_by_method` (pii_detection_service.py, 370-420) -/

/-- The grouping key `(entity['text'].lower().strip(), entity['label'])`. -/
def dedupKey (e : Entity) : String × String :=
  (pyStrip (pyLower e.text), e.label)

/-- Keys in order of first occurrence (insertion order of the Python
grouping dict), each kept once. -/
def uniqueKeysAux {α : Type} [DecidableEq α] : List α → List α → List α
  | _, [] => []
  | seen, k :: ks =>
    if k ∈ seen then uniqueKeysAux seen ks
    else k :: uniqueKeysAux (k :: seen) ks

/-- First-occurrence-ordered list of distinct keys. -/
def uniqueKeys {α : Type} [DecidableEq α] (l : List α) : List α :=
  uniqueKeysAux [] l

/-- First entity of maximal confidence, scanning left to right with a
strict comparison — exactly the element `group[0]` after Python's stable
`group.sort(key=lambda x: x['confidence'], reverse=True)`. -/
def bestFrom (b : Entity) : List Entity → Entity
  | [] => b
  | e :: es => if b.confidence < e.confidence then bestFrom e es else bestFrom b es

/-- Best entity of a group (`none` for an empty group, which never arises
since groups collect at least their defining occurrence). -/
def bestOf : List Entity → Option Entity
  | [] => none
  | e :: es => some (bestFrom e es)

/-- `_deduplicate_by_method`: group by `dedupKey` in first-occurrence
order, keep the highest-confidence entity of each group. -/
def dedupByMethod (l : List Entity) : List Entity :=
  (uniqueKeys (l.map dedupKey)).filterMap
    (fun k => bestOf (l.filter (fun e => dedupKey e == k)))

/-- The consolidation pipeline order used by `detect_pii` (lines 90-98):
overlap merge first, then cross-method deduplication. -/
def consolidate (l : List Entity) : List Entity :=
  dedupByMethod (mergeOverlapping l)

/-! ## Concrete entities used in counterexamples and witnesses -/

/-- A low-confidence entity later displaced by its duplicate `entZ`. -/
def entX : Entity := ⟨"x", "foo", "A", mkRat 1 2, 0, 3, "spacy", none⟩

/-- An entity whose span coincides with `entZ`'s. -/
def entY : Entity := ⟨"y", "bar", "B", mkRat 1 2, 10, 13, "spacy", none⟩

/-- A higher-confidence duplicate of `entX` located at `entY`'s span. -/
def entZ : Entity := ⟨"z", "foo", "A", mkRat 9 10, 10, 13, "spacy", none⟩

/-- A PATTERN (regex) detection, confidence 0.85. -/
def entPat : Entity := ⟨"p", "123-45-6789", "SSN", mkRat 85 100, 10, 21, "regex", none⟩

/-- A TRANSFORMER_NER (huggingface) detection of the same span, confidence 0.99. -/
def entTrans : Entity := ⟨"t", "123-45-6789", "PERSON", mkRat 99 100, 10, 21, "huggingface", none⟩

/-- A TRANSFORMER_NER detection, confidence 0.9, listed first. -/
def entHf : Entity := ⟨"t1", "John", "PERSON", mkRat 9 10, 0, 4, "huggingface", none⟩

/-- A STATISTICAL_NER (spacy) detection with the same key and confidence
as `entHf`, listed second. -/
def entSp : Entity := ⟨"s1", "John", "PERSON", mkRat 9 10, 100, 104, "spacy", none⟩

/-! ## Lemmas about `uniqueKeys` and `bestFrom` -/

theorem mem_uniqueKeysAux {α : Type} [DecidableEq α] (l : List α) :
    ∀ (seen : List α) (a : α), a ∈ uniqueKeysAux seen l ↔ a ∈ l ∧ a ∉ seen := by
  induction l with
  | nil => intro seen a; simp [uniqueKeysAux]
  | cons k ks ih =>
    intro seen a
    simp only [uniqueKeysAux]
    by_cases hk : k ∈ seen
    · rw [if_pos hk, ih]
      simp only [List.mem_cons]
      constructor
      · rintro ⟨h1, h2⟩; exact ⟨Or.inr h1, h2⟩
      · rintro ⟨h1 | h1, h2⟩
        · exact absurd (h1 ▸ hk) h2
        · exact ⟨h1, h2⟩
    · rw [if_neg hk]
      simp only [List.mem_cons, ih]
      constructor
      · rintro (rfl | ⟨h1, h2⟩)
        · exact ⟨Or.inl rfl, hk⟩
        · exact ⟨Or.inr h1, fun hs => h2 (Or.inr hs)⟩
      · rintro ⟨h1 | h1, h2⟩
        · left; exact h1
        · by_cases hak : a = k
          · left; exact hak
          · right
            refine ⟨h1, fun hs => ?_⟩
            rcases hs with h3 | h3
            · exact hak h3
            · exact h2 h3

theorem nodup_uniqueKeysAux {α : Type} [DecidableEq α] (l : List α) :
    ∀ seen : List α, (uniqueKeysAux seen l).Nodup := by
  induction l with
  | nil => intro seen; simp [uniqueKeysAux]
  | cons k ks ih =>
    intro seen
    simp only [uniqueKeysAux]
    by_cases hk : k ∈ seen
    · rw [if_pos hk]; exact ih seen
    · rw [if_neg hk]
      refine List.nodup_cons.mpr ⟨?_, ih (k :: seen)⟩
      intro hmem
      have := (mem_uniqueKeysAux ks (k :: seen) k).mp hmem
      exact this.2 (List.mem_cons_self k seen)

theorem mem_uniqueKeys {α : Type} [DecidableEq α] (l : List α) (a : α) :
    a ∈ uniqueKeys l ↔ a ∈ l := by
  rw [uniqueKeys, mem_uniqueKeysAux]
  simp

theorem nodup_uniqueKeys {α : Type} [DecidableEq α] (l : List α) :
    (uniqueKeys l).Nodup :=
  nodup_uniqueKeysAux l []

theorem bestFrom_mem (l : List Entity) : ∀ b : Entity, bestFrom b l ∈ b :: l := by
  induction l with
  | nil => intro b; simp [bestFrom]
  | cons e es ih =>
    intro b
    simp only [bestFrom]
    by_cases h : b.confidence < e.confidence
    · rw [if_pos h]
      have := ih e
      simp only [List.mem_cons] at this ⊢
      tauto
    · rw [if_neg h]
      have := ih b
      simp only [List.mem_cons] at this ⊢
      tauto

theorem bestFrom_conf (l : List Entity) :
    ∀ b : Entity, ∀ x ∈ b :: l, x.confidence ≤ (bestFrom b l).confidence := by
  induction l with
  | nil =>
    intro b x hx
    simp only [List.mem_cons, List.not_mem_nil, or_false] at hx
    subst hx; simp [bestFrom]
  | cons e es ih =>
    intro b x hx
    simp only [List.mem_cons] at hx
    simp only [bestFrom]
    by_cases h : b.confidence < e.confidence
    · rw [if_pos h]
      have hmem := ih e e (List.mem_cons_self e es)
      rcases hx with hxb | hxe | hxm
      · exact hxb ▸ le_trans (le_of_lt h) hmem
      · exact hxe ▸ hmem
      · exact ih e x (List.mem_cons_of_mem e hxm)
    · rw [if_neg h]
      have hmem := ih b b (List.mem_cons_self b es)
      rcases hx with hxb | hxe | hxm
      · exact hxb ▸ hmem
      · exact hxe ▸ le_trans (not_lt.mp h) hmem
      · exact ih b x (List.mem_cons_of_mem b hxm)

theorem bestOf_mem {g : List Entity} {b : Entity} (h : bestOf g = some b) : b ∈ g := by
  cases g with
  | nil => exact absurd h (by simp [bestOf])
  | cons e es =>
    simp only [bestOf, Option.some.injEq] at h
    exact h ▸ bestFrom_mem es e

theorem bestOf_conf {g : List Entity} {b : Entity} (h : bestOf g = some b) :
    ∀ x ∈ g, x.confidence ≤ b.confidence := by
  cases g with
  | nil => simp
  | cons e es =>
    simp only [bestOf, Option.some.injEq] at h
    exact h ▸ bestFrom_conf es e

/-! ## Structural lemmas about `dedupByMethod` -/

theorem dedup_subset {l : List Entity} : ∀ e ∈ dedupByMethod l, e ∈ l := by
  intro e he
  simp only [dedupByMethod, List.mem_filterMap] at he
  obtain ⟨k, _, hbest⟩ := he
  exact List.mem_of_mem_filter (bestOf_mem hbest)

theorem dedup_max_conf {l : List Entity} :
    ∀ e ∈ dedupByMethod l, ∀ x ∈ l, dedupKey x = dedupKey e → x.confidence ≤ e.confidence := by
  intro e he x hx hkey
  simp only [dedupByMethod, List.mem_filterMap] at he
  obtain ⟨k, _, hbest⟩ := he
  have hek : dedupKey e = k := by
    have := List.mem_filter.mp (bestOf_mem hbest)
    exact beq_iff_eq.mp this.2
  refine bestOf_conf hbest x (List.mem_filter.mpr ⟨hx, ?_⟩)
  rw [hkey, hek]
  exact beq_self_eq_true k

theorem dedup_keys_aux (l : List Entity) :
    ∀ ks : List (String × String), (∀ k ∈ ks, k ∈ l.map dedupKey) →
      ((ks.filterMap (fun k => bestOf (l.filter (fun e => dedupKey e == k)))).map dedupKey) = ks := by
  intro ks
  induction ks with
  | nil => intro _; simp
  | cons k ks ih =>
    intro hmem
    have hk : k ∈ l.map dedupKey := hmem k (List.mem_cons_self k ks)
    obtain ⟨e, he, hke⟩ := List.mem_map.mp hk
    have hef : e ∈ l.filter (fun x => dedupKey x == k) :=
      List.mem_filter.mpr ⟨he, by rw [hke]; exact beq_self_eq_true k⟩
    have hne : l.filter (fun x => dedupKey x == k) ≠ [] := by
      intro hnil; rw [hnil] at hef; exact List.not_mem_nil e hef
    obtain ⟨b, hb⟩ : ∃ b, bestOf (l.filter (fun x => dedupKey x == k)) = some b := by
      cases hg : l.filter (fun x => dedupKey x == k) with
      | nil => exact absurd hg hne
      | cons g gs => exact ⟨bestFrom g gs, rfl⟩
    have hbk : dedupKey b = k := by
      have := List.mem_filter.mp (bestOf_mem hb)
      exact beq_iff_eq.mp this.2
    simp only [List.filterMap_cons, hb, List.map_cons, hbk]
    rw [ih (fun x hx => hmem x (List.mem_cons_of_mem k hx))]

theorem dedup_keys_map (l : List Entity) :
    (dedupByMethod l).map dedupKey = uniqueKeys (l.map dedupKey) := by
  rw [dedupByMethod]
  exact dedup_keys_aux l (uniqueKeys (l.map dedupKey))
    (fun k hk => (mem_uniqueKeys (l.map dedupKey) k).mp hk)

theorem dedup_nodup_keys (l : List Entity) :
    (dedupByMethod l).Pairwise (fun a b => dedupKey a ≠ dedupKey b) := by
  have h : ((dedupByMethod l).map dedupKey).Nodup := by
    rw [dedup_keys_map]; exact nodup_uniqueKeys _
  exact (List.pairwise_map.mp h)

/-- For a list whose keys are pairwise distinct, filtering by one key
yields exactly one element when the key occurs, zero otherwise. -/
theorem filter_length_of_nodup_keys :
    ∀ out : List Entity, (out.map dedupKey).Nodup → ∀ k,
      (out.filter (fun e => dedupKey e == k)).length =
        if k ∈ out.map dedupKey then 1 else 0 := by
  intro out
  induction out with
  | nil => intro _ k; simp
  | cons e out ih =>
    intro hnd k
    rw [List.map_cons, List.nodup_cons] at hnd
    by_cases hek : dedupKey e = k
    · have hfe : out.filter (fun x => dedupKey x == k) = [] := by
        rw [List.filter_eq_nil_iff]
        intro a ha hbeq
        have : dedupKey a = k := beq_iff_eq.mp hbeq
        exact hnd.1 (hek ▸ this ▸ List.mem_map_of_mem dedupKey ha)
      rw [List.filter_cons]
      simp only [hek, beq_self_eq_true, if_pos, hfe]
      simp [hek]
    · rw [List.filter_cons]
      have hbeq : (dedupKey e == k) = false := by
        simp [hek]
      simp only [hbeq, Bool.false_eq_true, if_neg, not_false_iff]
      rw [ih hnd.2 k]
      simp only [List.map_cons, List.mem_cons]
      have : ¬ k = dedupKey e := fun h => hek h.symm
      simp [this]

/-! ## Claim theorems: consolidation (C1, C2, C5, C6) -/

/-- C1 (counterexample).  The consolidated output (overlap merge followed
by deduplication) is *not* always overlap-free: for the input
`[entX, entY, entZ]` — where `entZ` is a higher-confidence duplicate of
`entX` relocated to `entY`'s span — the duplicate branch of
`_merge_overlapping_entities` re-appends `entZ` without any overlap check,
so the output contains both `entY` and `entZ`, whose spans overlap under
`a.start <= b.end ∧ b.start <= a.end`. -/
theorem consolidate_overlap_counterexample :
    ¬ ((consolidate [entX, entY, entZ]).Pairwise
        (fun a b => ¬ (a.startPos ≤ b.endPos ∧ b.startPos ≤ a.endPos))) := by
  decide

/-- C1 (amended).  The half of the claim that survives: the consolidated
output never contains two entities with equal
`(case-folded trimmed text, label)` key, because `_deduplicate_by_method`
runs last and keeps exactly one entity per key group. -/
theorem consolidate_nodup_keys (l : List Entity) :
    (consolidate l).Pairwise (fun a b => dedupKey a ≠ dedupKey b) :=
  dedup_nodup_keys (mergeOverlapping l)

/-- C2 (counterexample).  A PATTERN (regex) entity with confidence 0.85
does *not* win over a TRANSFORMER_NER entity with confidence 0.99 at the
same span when the pattern entity is scanned first: the overlap branch
prefers regex only for the *incoming* entity, so the later transformer
entity replaces the pattern one on strictly higher confidence. -/
theorem pattern_priority_counterexample :
    consolidate [entPat, entTrans] = [entTrans] ∧
    entPat.method = "regex" ∧ entTrans.method = "huggingface" ∧
    entPat.confidence = mkRat 85 100 ∧ entTrans.confidence = mkRat 99 100 := by
  decide

/-- C2 (amended).  The regex preference the code actually implements: when
the *incoming* entity `r` of an overlapping pair is the regex one and the
existing entity `x` is not, `r` replaces `x` regardless of either
confidence.  (In the converse order the incoming non-regex entity wins
whenever its confidence is strictly higher, as the counterexample shows.) -/
theorem merge_incoming_regex_wins (x r : Entity)
    (hord : x.startPos ≤ r.startPos)
    (hkey : mergeKey r ≠ mergeKey x)
    (hvar : ¬ (r.label = x.label ∧ pyLower r.text = pyLower x.text))
    (hov1 : r.startPos ≤ x.endPos + 2)
    (hov2 : x.startPos - 2 ≤ r.startPos)
    (hrm : r.method = "regex")
    (hxm : x.method ≠ "regex") :
    mergeOverlapping [x, r] = [r] := by
  have hsort : pySortByStart [x, r] = [x, r] := by
    simp only [pySortByStart, List.foldr, insertByStart, if_pos hord]
  have hfind : (mergeKey x == mergeKey r) = false :=
    beq_eq_false_iff_ne.mpr (fun h => hkey h.symm)
  have hself : (x != x) = false := by simp
  simp only [mergeOverlapping, hsort, List.foldl, mergeStep, seenFind, List.find?,
    overlapScan, List.find?_nil, Option.map_none, List.find?_cons, hfind]
  simp only [overlapScan, if_neg hvar, if_pos (And.intro hov1 hov2),
    if_pos (Or.inl (And.intro hrm hxm))]
  simp [hself]

/-- C2 (witness).  The amended rule at a concrete overlapping pair: the
transformer entity is scanned first, the pattern entity second, and the
pattern entity wins. -/
theorem merge_incoming_regex_wins_witness :
    mergeOverlapping [entTrans, entPat] = [entPat] :=
  merge_incoming_regex_wins entTrans entPat (by decide) (by decide) (by decide)
    (by decide) (by decide) (by decide) (by decide)

/-- C5.  `_deduplicate_by_method` keeps, for every
`(case-folded trimmed text, label)` key occurring in the input, exactly
one entity; the kept entity has maximal confidence within its key group
(spans playing no role), and every output entity belongs to the input. -/
theorem dedup_by_method_spec (l : List Entity) :
    (∀ e ∈ dedupByMethod l, e ∈ l) ∧
    (∀ k : String × String,
      ((dedupByMethod l).filter (fun e => dedupKey e == k)).length =
        if k ∈ l.map dedupKey then 1 else 0) ∧
    (∀ e ∈ dedupByMethod l, ∀ x ∈ l, dedupKey x = dedupKey e →
      x.confidence ≤ e.confidence) := by
  refine ⟨dedup_subset, ?_, dedup_max_conf⟩
  intro k
  rw [filter_length_of_nodup_keys (dedupByMethod l)
    (by rw [dedup_keys_map]; exact nodup_uniqueKeys _) k]
  refine if_congr ?_ rfl rfl
  rw [dedup_keys_map, mem_uniqueKeys]

/-- C5 (witness).  The dedup properties at a concrete two-entity group
sharing one key: one survivor, member of the input, of maximal
confidence. -/
theorem dedup_by_method_spec_witness :
    entHf ∈ [entHf, entSp] ∧
    ((dedupByMethod [entHf, entSp]).filter
        (fun e => dedupKey e == dedupKey entHf)).length = 1 ∧
    entSp.confidence ≤ entHf.confidence := by
  obtain ⟨h1, h2, h3⟩ := dedup_by_method_spec [entHf, entSp]
  refine ⟨h1 entHf (by decide), ?_, h3 entHf (by decide) entSp (by decide) (by decide)⟩
  rw [h2 (dedupKey entHf)]
  decide

/-- C6 (counterexample).  Confidence ties are *not* broken by the method
priority order PATTERN > STATISTICAL_NER > TRANSFORMER_NER > MANUAL: with
a TRANSFORMER_NER ("huggingface") entity listed before a STATISTICAL_NER
("spacy") entity of equal key and equal confidence, consolidation keeps
the transformer one — the earlier entity wins, method ignored. -/
theorem tie_break_method_priority_counterexample :
    consolidate [entHf, entSp] = [entHf] ∧
    entHf.method = "huggingface" ∧ entSp.method = "spacy" ∧
    entHf.confidence = entSp.confidence := by
  decide

/-- C6 (amended).  Confidence ties are broken by original list order alone
(the earlier entity wins), with no method-priority ladder: both the
deduplication stage and the duplicate branch of the overlap merge keep the
first-listed entity of an equal-confidence pair sharing a key.
Consolidation remains a deterministic function of the input list (it is a
pure function of it). -/
theorem tie_break_original_order (e1 e2 : Entity)
    (hkey : dedupKey e1 = dedupKey e2) (hconf : e1.confidence = e2.confidence) :
    dedupByMethod [e1, e2] = [e1] ∧
    (mergeKey e1 = mergeKey e2 → e1.startPos ≤ e2.startPos →
      mergeOverlapping [e1, e2] = [e1]) := by
  constructor
  · have hb1 : (dedupKey e1 == dedupKey e1) = true := beq_self_eq_true _
    have hb2 : (dedupKey e2 == dedupKey e1) = true := beq_iff_eq.mpr hkey.symm
    simp only [dedupByMethod, List.map_cons, List.map_nil, uniqueKeys, uniqueKeysAux,
      List.not_mem_nil, if_false, List.mem_singleton, ← hkey, if_pos rfl]
    simp only [List.filterMap_cons, List.filterMap_nil, List.filter_cons, List.filter_nil,
      hb1, hb2, if_pos]
    simp only [bestOf, bestFrom, hconf, lt_irrefl, if_neg, if_false]
  · intro hmk hord
    have hsort : pySortByStart [e1, e2] = [e1, e2] := by
      simp only [pySortByStart, List.foldr, insertByStart, if_pos hord]
    have hfind : (mergeKey e1 == mergeKey e2) = true := beq_iff_eq.mpr hmk
    simp only [mergeOverlapping, hsort, List.foldl, mergeStep, seenFind, List.find?,
      overlapScan]
    simp only [List.find?_nil, Option.map_none, List.find?_cons, hfind]
    simp only [Option.map_some, hconf, lt_irrefl, if_false]
    simp [hconf]

/-- C6 (witness).  The amended tie-break rule at the concrete
equal-confidence pair: the first-listed entity survives both stages. -/
theorem tie_break_original_order_witness :
    dedupByMethod [entHf, entSp] = [entHf] ∧
    mergeOverlapping [entHf, entSp] = [entHf] := by
  obtain ⟨h1, h2⟩ := tie_break_original_order entHf entSp (by decide) (by decide)
  exact ⟨h1, h2 (by decide) (by decide)⟩

/-! ## `_filter_header_labels` (pii_detection_service.py, 146-247) -/

/-- The static deny-list `skip_labels` (lines 149-173), transcribed
verbatim; the Python set's duplicate entry is harmless for membership. -/
def skipLabels : List String :=
  ["office copy", "receipt date", "form no", "receipt no",
   "prn no", "payment date", "installment details", "paid amount",
   "class name", "student name", "academic year", "div", "category",
   "roll no", "grand total", "amount in rs", "paid amount in rs",
   "student name:", "form no:", "class name:", "received:", "rs",
   "college fee particulars", "receipt no", "paid on", "transaction id",
   "total", "receipt", "college fee", "portal subscription fee",
   "amount in words", "pay date & time", "amount in rs.",
   "college fee receipt", "date", "time", "fee", "form", "in rs",
   "amount", "paid", "a", "obc", "b. tech", "b.tech", "b tech", "cs",
   "b.a", "b.sc", "b.com", "b.e", "mtech", "m.tech", "mca", "m.ca",
   "three hundred and fifty four rupees", "three hundred", "fifty", "four",
   "rupees", "and", "prn no:", "office copy receipt date",
   "0.00", "0.0", "354", "2819", "00", "0",
   "degree", "diploma", "certificate", "course",
   "name", "id", "number", "no", "no:", "date:", "time:", "amount:",
   "paid on:", "paid date:", "payment date:", "from:", "to:",
   "balance", "due", "semester", "academic", "session", "year",
   "2025-26", "2024-25", "2023-24"]

/-- The `common_pii_labels` set (line 215). -/
def commonPiiLabels : List String :=
  ["ssn", "dob", "pan", "aadhar", "phone", "email", "name", "address",
   "city", "state", "pin", "zip", "account", "card", "id", "no", "date"]

/-- Labels exempt from the short-text rejection (line 209). -/
def shortValueLabels : List String :=
  ["DATE", "TIME", "STUDENT_ID", "TRANSACTION_ID"]

/-- Labels exempt from the `common_pii_labels` rejection (line 217). -/
def piiValueLabels : List String :=
  ["SSN", "PHONE", "EMAIL", "DATE"]

/-- Regex `\w` (ASCII model): letters, digits, underscore. -/
def isWordChar (c : Char) : Bool :=
  c.isAlphanum || c == '_'

/-- Matcher for `^\w+\s+<kw>:?$` (the word-character and whitespace
classes are disjoint, so the greedy scan is deterministic). -/
def matchWordThenKeyword (kw : List Char) (s : List Char) : Bool :=
  let w := s.takeWhile isWordChar
  let rest1 := s.dropWhile isWordChar
  let sp := rest1.takeWhile pyIsSpaceChar
  let rest2 := rest1.dropWhile pyIsSpaceChar
  !w.isEmpty && !sp.isEmpty && (rest2 == kw || rest2 == kw ++ [':'])

/-- Matcher for `^[\w\s]+:$`: a final colon preceded by a nonempty run of
word characters and whitespace (a colon cannot occur in that run, so no
backtracking is possible). -/
def matchWordSpaceColon (s : List Char) : Bool :=
  let front := s.dropLast
  !front.isEmpty && s.getLast? == some ':' &&
    front.all (fun c => isWordChar c || pyIsSpaceChar c)

/-- The three `label_patterns` regexes (lines 176-180), matched against
the lowered text: `^\w+\s+no:?$`, `^\w+\s+name:?$`, `^[\w\s]+:$`. -/
def matchesLabelPattern (tl : String) : Bool :=
  matchWordThenKeyword "no".data tl.data ||
  matchWordThenKeyword "name".data tl.data ||
  matchWordSpaceColon tl.data

/-- `entity_text.replace('.', '')`. -/
def removeDots (s : String) : String :=
  String.mk (s.data.filter (fun c => c != '.'))

/-- Exact test for `0 <= float(s) <= 9999` on a digits-and-at-most-one-dot
string (nonnegativity is automatic).  Python parses the string as an IEEE
double; this exact rational comparison agrees with it for every fraction
short enough to be represented, which covers all realistic amounts. -/
def amountLe9999 (s : String) : Bool :=
  let ipart := natOfDigits (s.data.takeWhile (fun c => c != '.'))
  let fpart := (s.data.dropWhile (fun c => c != '.')).drop 1
  if s.data.count '.' = 0 then decide (ipart ≤ 9999)
  else decide (ipart < 9999) || (ipart == 9999 && fpart.all (fun c => c == '0'))

/-- One suffix alternative of `^[a-zA-Z\s]+[Rr]upees?$`: the literal tail
`suf` preceded by a nonempty run of letters and whitespace. -/
def writtenAmountSuffix (s : String) (suf : String) : Bool :=
  s.endsWith suf &&
  (let pre := s.data.take (s.data.length - suf.data.length)
   !pre.isEmpty && pre.all (fun c => c.isAlpha || pyIsSpaceChar c))

/-- Matcher for `re.match(r'^[a-zA-Z\s]+[Rr]upees?$', text)` (line 231):
the tail literal is one of the four `[Rr]upees?` expansions. -/
def writtenAmountMatch (s : String) : Bool :=
  writtenAmountSuffix s "Rupees" || writtenAmountSuffix s "rupees" ||
  writtenAmountSuffix s "Rupee" || writtenAmountSuffix s "rupee"

/-- Matcher for `re.match(r'^\d{1,2}:\d{2}(:\d{2})?', text)` (line 237).
`re.match` only anchors at the start and the optional seconds group can
always match empty, so the test is a prefix check with regex backtracking
on the hour width. -/
def timeShapeMatch (s : List Char) : Bool :=
  match s with
  | a :: b :: c :: d :: f :: _ =>
    (a.isDigit && b.isDigit && c == ':' && d.isDigit && f.isDigit) ||
    (a.isDigit && b == ':' && c.isDigit && d.isDigit)
  | [a, b, c, d] => a.isDigit && b == ':' && c.isDigit && d.isDigit
  | _ => false

/-- The written-amount and time-shape rejections (lines 230-240), reached
when the numeric-amount branch does not discard the entity. -/
def keepRemaining (e : Entity) (t : String) : Except String Bool :=
  if e.label = "IDENTIFIER" ∧ writtenAmountMatch t then .ok false
  else if e.label = "TIME" ∧ ¬ timeShapeMatch t.data then .ok false
  else .ok true

/-- The per-entity keep/reject decision of `_filter_header_labels`
(lines 185-242), in source order: deny-list, label patterns, short text,
PII field names, numeric amount (where `float(entity_text)` raises
`ValueError` on a second dot — modelled as the error case), written
amount, time shape. -/
def keepEntity (e : Entity) : Except String Bool :=
  let t := pyStrip e.text
  let tl := pyStrip (pyLower t)
  if tl ∈ skipLabels then .ok false
  else if matchesLabelPattern tl then .ok false
  else if t.length ≤ 2 ∧ e.label ∉ shortValueLabels then .ok false
  else if tl ∈ commonPiiLabels ∧ e.label ∉ piiValueLabels then .ok false
  else if e.label = "IDENTIFIER" ∧ pyIsDigitStr (removeDots t) then
    if 2 ≤ t.data.count '.' then .error "could not convert string to float"
    else if amountLe9999 t then .ok false
    else keepRemaining e t
  else keepRemaining e t

/-- `_filter_header_labels` as a whole: the Python loop appends keepers in
order and propagates the first `ValueError` raised by a malformed
`IDENTIFIER` amount. -/
def filterHeaderLabels : List Entity → Except String (List Entity)
  | [] => .ok []
  | e :: es =>
    match keepEntity e with
    | .error msg => .error msg
    | .ok b =>
      match filterHeaderLabels es with
      | .error msg => .error msg
      | .ok rest => .ok (if b then e :: rest else rest)

/-- The keep decision, defaulting to reject on the error case. -/
def keepOk (e : Entity) : Bool :=
  match keepEntity e with
  | .ok b => b
  | .error _ => false

/-- Whether the keep decision evaluates without raising. -/
def keepDefined (e : Entity) : Bool :=
  match keepEntity e with
  | .ok _ => true
  | .error _ => false

/-- An entity the filter keeps (ordinary PERSON value). -/
def entKeep : Entity := ⟨"w1", "John Smith", "PERSON", mkRat 9 10, 0, 10, "spacy", none⟩

/-- An entity the deny-list rejects (`"total"`). -/
def entDrop : Entity := ⟨"w2", "Total", "IDENTIFIER", mkRat 8 10, 20, 25, "spacy", none⟩

theorem keepDefined_of_ok {e : Entity} {b : Bool} (h : keepEntity e = Except.ok b) :
    keepDefined e = true := by
  rw [keepDefined, h]

theorem keepOk_of_ok {e : Entity} {b : Bool} (h : keepEntity e = Except.ok b) :
    keepOk e = b := by
  rw [keepOk, h]

/-- `_filter_header_labels` succeeds exactly when every per-entity decision
evaluates without raising, and then returns the order-preserving filter of
the pure per-entity keep predicate. -/
theorem filterHeaderLabels_ok_iff :
    ∀ (l ys : List Entity),
      filterHeaderLabels l = Except.ok ys ↔
        ((∀ e ∈ l, keepDefined e = true) ∧ ys = l.filter keepOk) := by
  intro l
  induction l with
  | nil =>
    intro ys
    simp only [filterHeaderLabels, List.filter_nil, List.not_mem_nil, false_implies,
      implies_true, true_and, Except.ok.injEq]
    exact eq_comm
  | cons e es ih =>
    intro ys
    simp only [filterHeaderLabels]
    cases h : keepEntity e with
    | error msg =>
      constructor
      · intro hc; exact absurd hc (by simp)
      · rintro ⟨hall, _⟩
        have hd := hall e (List.mem_cons_self e es)
        rw [keepDefined, h] at hd
        exact absurd hd (by simp)
    | ok b =>
      cases hr : filterHeaderLabels es with
      | error msg =>
        constructor
        · intro hc; exact absurd hc (by simp)
        · rintro ⟨hall, _⟩
          have : filterHeaderLabels es = Except.ok (es.filter keepOk) :=
            (ih (es.filter keepOk)).mpr
              ⟨fun x hx => hall x (List.mem_cons_of_mem e hx), rfl⟩
          rw [hr] at this
          exact absurd this (by simp)
      | ok rest =>
        obtain ⟨hall, hrest⟩ := (ih rest).mp hr
        constructor
        · intro hc
          have hys : ys = if b then e :: rest else rest := by
            have := Except.ok.inj hc
            exact this.symm
          refine ⟨?_, ?_⟩
          · intro x hx
            rcases List.mem_cons.mp hx with rfl | hx
            · rw [keepDefined, h]
            · exact hall x hx
          · rw [hys, hrest, List.filter_cons, keepOk_of_ok h]
        · rintro ⟨hall2, hys⟩
          rw [hys, List.filter_cons, keepOk_of_ok h, hrest]

/-- C4.  The false-positive filter is idempotent
(`filter (filter X) = filter X`, stated through `Except.bind` because a
malformed `IDENTIFIER` amount makes the Python pass raise `ValueError`,
and a raise trivially re-raises), its successful output is
permutation-congruent in the input (so independent of examination order),
and each entity's keep/reject decision depends on that entity alone. -/
theorem filter_idempotent_order_independent (X : List Entity) :
    ((filterHeaderLabels X).bind filterHeaderLabels = filterHeaderLabels X) ∧
    (∀ Y ys zs, X.Perm Y → filterHeaderLabels X = Except.ok ys →
      filterHeaderLabels Y = Except.ok zs → ys.Perm zs) ∧
    (∀ ys, filterHeaderLabels X = Except.ok ys →
      ∀ e, e ∈ ys ↔ (e ∈ X ∧ keepOk e = true)) := by
  refine ⟨?_, ?_, ?_⟩
  · cases h : filterHeaderLabels X with
    | error msg => rfl
    | ok ys =>
      obtain ⟨hall, hys⟩ := (filterHeaderLabels_ok_iff X ys).mp h
      have h2 : filterHeaderLabels ys = Except.ok ys := by
        refine (filterHeaderLabels_ok_iff ys ys).mpr ⟨?_, ?_⟩
        · intro e he
          exact hall e (List.mem_of_mem_filter (hys ▸ he))
        · symm
          apply List.filter_eq_self.mpr
          intro a ha
          exact (List.mem_filter.mp (hys ▸ ha)).2
      simpa [Except.bind] using h2
  · intro Y ys zs hperm hX hY
    obtain ⟨_, hys⟩ := (filterHeaderLabels_ok_iff X ys).mp hX
    obtain ⟨_, hzs⟩ := (filterHeaderLabels_ok_iff Y zs).mp hY
    rw [hys, hzs]
    exact hperm.filter keepOk
  · intro ys h e
    obtain ⟨_, hys⟩ := (filterHeaderLabels_ok_iff X ys).mp h
    rw [hys]
    simp [List.mem_filter]

/-- C4 (witness).  The filter properties at a concrete two-entity list
(one kept, one deny-listed) and its transposition. -/
theorem filter_idempotent_order_independent_witness :
    ((filterHeaderLabels [entKeep, entDrop]).bind filterHeaderLabels
        = filterHeaderLabels [entKeep, entDrop]) ∧
    List.Perm [entKeep] [entKeep] ∧
    (entKeep ∈ ([entKeep] : List Entity) ↔
      (entKeep ∈ [entKeep, entDrop] ∧ keepOk entKeep = true)) := by
  obtain ⟨h1, h2, h3⟩ := filter_idempotent_order_independent [entKeep, entDrop]
  refine ⟨h1, ?_, ?_⟩
  · exact h2 [entDrop, entKeep] [entKeep] [entKeep] (by decide) rfl rfl
  · exact h3 [entKeep] rfl entKeep

/-! ## `redaction_service.py` -/

/-- A Python exception, distinguishing `ValueError` (re-raised by
`redact_document`) from every other exception class (absorbed by its
fallback branch). -/
structure PyErr where
  isValueError : Bool
  msg : String
deriving DecidableEq

/-- The inner result of `_redact_pdf` / `_redact_image`. -/
structure InnerStats where
  redactedEntities : Nat
  totalEntities : Nat
deriving DecidableEq

/-- What `redact_document` leaves at `output_path`. -/
inductive Artifact where
  | redactedOutput
  | originalCopy
deriving DecidableEq

/-- The result dict of `redact_document`. -/
structure RedactOutcome where
  artifact : Artifact
  redactedEntities : Nat
  totalEntities : Nat
  errorMsg : Option String
deriving DecidableEq

/-- `RedactionService.redact_document` (lines 55-88).  `inner` abstracts
the outcome of the `_redact_pdf` / `_redact_image` call for this input
(surface I/O is outside the embedding); `copyOk` abstracts whether the
fallback `shutil.copy2` of the original succeeds.  An unsupported
extension raises `ValueError`, which the `except ValueError` clause
re-raises; any other exception from the inner pass triggers the
copy-the-original fallback, and if that copy also fails the original
exception is re-raised. -/
def redactDocument (ext : String) (nEntities : Nat)
    (inner : Except PyErr InnerStats) (copyOk : Bool) :
    Except PyErr RedactOutcome :=
  if ext = ".pdf" ∨ ext ∈ [".png", ".jpg", ".jpeg"] then
    match inner with
    | .ok r =>
      .ok { artifact := .redactedOutput, redactedEntities := r.redactedEntities,
            totalEntities := r.totalEntities, errorMsg := none }
    | .error err =>
      if err.isValueError then .error err
      else if copyOk then
        .ok { artifact := .originalCopy, redactedEntities := 0,
              totalEntities := nEntities, errorMsg := some err.msg }
      else .error err
  else .error { isValueError := true, msg := "Unsupported file format" }

/-- One page of an opened PDF: `occ` models `page.search_for`, giving the
number of match rectangles for each literal string (absent strings have no
matches); `loadFails` marks a page whose `pdf_doc[page_num]` access raises
(per-entity search failures are caught by the inner `try` and change
nothing, so they need no separate modelling). -/
structure PdfPage where
  occ : List (String × Nat)
  loadFails : Bool
deriving DecidableEq

/-- An opened PDF document. -/
structure PdfDoc where
  pages : List PdfPage
deriving DecidableEq

/-- A custom user-drawn redaction; `bbox = none` models a malformed
entry whose `redaction["bbox"]`-shaped access raises inside the per-page
`try`, failing the page after the regions before it were painted. -/
structure CustomRedaction where
  page : Nat
  bbox : Option Rect
deriving DecidableEq

/-- One output page: the number of rectangles painted onto it (content
mutation only — the page itself is never resized or removed). -/
structure OutPage where
  painted : Nat
deriving DecidableEq

/-- The statistics dict returned by `apply_redactions_to_pdf`.  All four
fields are counters (`Nat`), hence non-negative by type. -/
structure RedactionStats where
  totalRedacted : Nat
  totalPages : Nat
  processedPages : Nat
  failedPages : Nat
deriving DecidableEq

/-- Number of `search_for` rectangles for `t` on page `p`. -/
def occCount (p : PdfPage) (t : String) : Nat :=
  match p.occ.find? (fun q => q.1 == t) with
  | some q => q.2
  | none => 0

/-- Regions painted for the approved entities on one page (lines 378-407):
every search match of each approved entity's stripped text becomes one
painted rectangle; empty-text entities are skipped. -/
def entityRegionCount (p : PdfPage) (approved : List Entity) : Nat :=
  (approved.map (fun e =>
    let t := pyStrip e.text
    if t = "" then 0 else occCount p t)).sum

/-- Scan of the custom-redaction list for one page (lines 410-431):
returns the number painted before the first malformed entry for this page,
and whether the scan completed without raising. -/
def customScan (pageNum : Nat) : List CustomRedaction → Nat × Bool
  | [] => (0, true)
  | c :: cs =>
    if c.page = pageNum then
      match c.bbox with
      | none => (0, false)
      | some _ =>
        let r := customScan pageNum cs
        (r.1 + 1, r.2)
    else customScan pageNum cs

/-- One iteration of the per-page loop (lines 372-439): a page that fails
to load paints nothing and counts as failed; otherwise entity regions are
painted, then customs, and a malformed custom fails the page after its
predecessors were painted.  Returns (regions painted, page succeeded). -/
def processPage (p : PdfPage) (approved : List Entity)
    (customs : List CustomRedaction) (pageNum : Nat) : Nat × Bool :=
  if p.loadFails then (0, false)
  else
    let c := customScan pageNum customs
    (entityRegionCount p approved + c.1, c.2)

/-- The page loop with its statistic accumulators. -/
def applyPages (approved : List Entity) (customs : List CustomRedaction) :
    List PdfPage → Nat → List OutPage × RedactionStats
  | [], _ => ([], ⟨0, 0, 0, 0⟩)
  | p :: ps, pageNum =>
    let r := processPage p approved customs pageNum
    let rest := applyPages approved customs ps (pageNum + 1)
    (⟨r.1⟩ :: rest.1,
     { totalRedacted := r.1 + rest.2.totalRedacted,
       totalPages := 1 + rest.2.totalPages,
       processedPages := (if r.2 then 1 else 0) + rest.2.processedPages,
       failedPages := (if r.2 then 0 else 1) + rest.2.failedPages })

/-- `apply_redactions_to_pdf` (lines 318-462).  `openRes` abstracts
`fitz.open` on the input bytes; on failure the function's `except` clause
logs and re-raises — there is no fallback.  On success the approved subset
is `[e for e in entities if e.get('id') in approved_entity_ids]` and the
page loop runs; the modified document (same pages, content painted) and
the statistics are returned. -/
def applyRedactionsToPdf (openRes : Except PyErr PdfDoc)
    (entities : List Entity) (approvedIds : List String)
    (customs : List CustomRedaction) :
    Except PyErr (List OutPage × RedactionStats) :=
  match openRes with
  | .error err => .error err
  | .ok doc =>
    let approved := entities.filter (fun e => approvedIds.contains e.id)
    .ok (applyPages approved customs doc.pages 0)

/-- A flat image canvas: dimensions plus painted marks (`_redact_image`
only ever draws fills or pastes an equally-sized blurred crop back into
its own box, so pixel content is abstracted to the mark list). -/
structure Canvas where
  width : Nat
  height : Nat
  marks : List Rect
deriving DecidableEq

/-- Painting one rectangle of any style onto the canvas
(`draw.rectangle(...)`, or crop + GaussianBlur + paste at the same box):
content changes, dimensions do not. -/
def paintRect (c : Canvas) (r : Rect) : Canvas :=
  { c with marks := c.marks ++ [r] }

/-- The per-entity branch body of `_redact_image` (lines 261-300): paint
for a known style, draw nothing for an unknown one; either way the
redacted counter is incremented, while a missing bbox fails the entity. -/
def applyStyleToCanvas (style : String) (c : Canvas) (r : Rect) : Canvas :=
  if style = "black" then paintRect c r
  else if style = "white" then paintRect c r
  else if style = "blur" then paintRect c r
  else c

/-- One entity of the `_redact_image` loop: a missing bbox fails the
entity; otherwise the region is painted (or skipped for an unknown style)
and the redacted counter incremented. -/
def imageStep (style : String) (acc : Canvas × Nat × Nat) (e : Entity) :
    Canvas × Nat × Nat :=
  match e.bbox with
  | none => (acc.1, acc.2.1, acc.2.2 + 1)
  | some r => (applyStyleToCanvas style acc.1 r, acc.2.1 + 1, acc.2.2)

/-- `_redact_image` after a successful `Image.open`: fold over the entity
list, returning (canvas, redacted count, failed count). -/
def redactImage (img : Canvas) (entities : List Entity) (style : String) :
    Canvas × Nat × Nat :=
  entities.foldl (imageStep style) (img, 0, 0)

/-! ## Redaction history (documents.py, `apply_redaction`, 1044-1060) -/

/-- One entry of `metadata["redaction_history"]`. -/
structure HistEntry where
  timestamp : String
  versionedPath : String
  approvedEntityCount : Nat
  customRedactionCount : Nat
  totalRedacted : Nat
  processingTimeMs : Nat
deriving DecidableEq

/-- The history update: append the new entry, then keep only the last 10
(`history[-10:]`, i.e. drop all but the final 10) when the appended list
exceeds 10. -/
def updateHistory (old : List HistEntry) (e : HistEntry) : List HistEntry :=
  if (old ++ [e]).length > 10 then (old ++ [e]).drop ((old ++ [e]).length - 10)
  else old ++ [e]

/-! ## Lemmas about the redaction applicator -/

theorem applyPages_length (approved : List Entity) (customs : List CustomRedaction) :
    ∀ (ps : List PdfPage) (pn : Nat),
      (applyPages approved customs ps pn).1.length = ps.length := by
  intro ps
  induction ps with
  | nil => intro pn; simp [applyPages]
  | cons p ps ih => intro pn; simp [applyPages, ih (pn + 1)]

theorem applyPages_stats (approved : List Entity) (customs : List CustomRedaction) :
    ∀ (ps : List PdfPage) (pn : Nat),
      (applyPages approved customs ps pn).2.totalPages = ps.length ∧
      (applyPages approved customs ps pn).2.processedPages +
        (applyPages approved customs ps pn).2.failedPages = ps.length := by
  intro ps
  induction ps with
  | nil => intro pn; simp [applyPages]
  | cons p ps ih =>
    intro pn
    obtain ⟨h1, h2⟩ := ih (pn + 1)
    constructor
    · simp [applyPages, h1, Nat.add_comm]
    · simp only [applyPages]
      cases hp : (processPage p approved customs pn).2 <;> simp <;> omega

theorem applyStyle_width (style : String) (c : Canvas) (r : Rect) :
    (applyStyleToCanvas style c r).width = c.width ∧
    (applyStyleToCanvas style c r).height = c.height := by
  unfold applyStyleToCanvas paintRect
  split <;> try exact ⟨rfl, rfl⟩
  split <;> try exact ⟨rfl, rfl⟩
  split <;> exact ⟨rfl, rfl⟩

theorem imageFold_dims (style : String) :
    ∀ (es : List Entity) (acc : Canvas × Nat × Nat),
      (es.foldl (imageStep style) acc).1.width = acc.1.width ∧
      (es.foldl (imageStep style) acc).1.height = acc.1.height := by
  intro es
  induction es with
  | nil => intro acc; exact ⟨rfl, rfl⟩
  | cons e es ih =>
    intro acc
    rw [List.foldl_cons]
    obtain ⟨hw, hh⟩ := ih (imageStep style acc e)
    rw [hw, hh]
    unfold imageStep
    cases e.bbox with
    | none => exact ⟨rfl, rfl⟩
    | some r => exact applyStyle_width style acc.1 r

theorem applyPages_single (e : Entity) (ht : pyStrip e.text ≠ "") :
    ∀ (ps : List PdfPage) (pn : Nat), (∀ p ∈ ps, p.loadFails = false) →
      (applyPages [e] [] ps pn).1.map OutPage.painted
          = ps.map (fun p => occCount p (pyStrip e.text)) ∧
      (applyPages [e] [] ps pn).2.totalRedacted
          = (ps.map (fun p => occCount p (pyStrip e.text))).sum := by
  intro ps
  induction ps with
  | nil => intro pn _; simp [applyPages]
  | cons p ps ih =>
    intro pn hload
    obtain ⟨h1, h2⟩ := ih (pn + 1) (fun q hq => hload q (List.mem_cons_of_mem p hq))
    have hpage : processPage p [e] [] pn = (occCount p (pyStrip e.text), true) := by
      rw [processPage, if_neg (by rw [hload p (List.mem_cons_self p ps)]; simp)]
      simp [customScan, entityRegionCount, if_neg ht]
    simp [applyPages, hpage, h1, h2]

/-! ## Claim theorems: redaction application and history (C3, C7, C8, C9, C10) -/

/-- C3 (counterexample).  `apply_redactions_to_pdf` has no fallback: when
opening the document stream raises, the exception propagates to the caller
instead of the pass returning the unmodified original bytes with zero
regions and an error flag. -/
theorem apply_redactions_open_failure_propagates :
    applyRedactionsToPdf (Except.error ⟨false, "cannot open document stream"⟩) [] [] []
      = Except.error ⟨false, "cannot open document stream"⟩ := rfl

/-- C3 (amended).  The fallback the claim describes exists only in
`RedactionService.redact_document`: when the inner pass raises a
non-`ValueError` exception and the fallback copy succeeds, the pass
returns an unmodified copy of the original with zero redacted entities and
the error message recorded, raising nothing. -/
theorem redact_document_fallback (ext : String) (n : Nat) (err : PyErr)
    (hext : ext = ".pdf" ∨ ext ∈ [".png", ".jpg", ".jpeg"])
    (herr : err.isValueError = false) :
    redactDocument ext n (Except.error err) true =
      Except.ok { artifact := Artifact.originalCopy, redactedEntities := 0,
                  totalEntities := n, errorMsg := some err.msg } := by
  rw [redactDocument, if_pos hext]
  simp [herr]

/-- C3 (witness).  The fallback at a concrete failing PDF pass. -/
theorem redact_document_fallback_witness :
    redactDocument ".pdf" 3 (Except.error ⟨false, "cannot open pdf"⟩) true =
      Except.ok ⟨Artifact.originalCopy, 0, 3, some "cannot open pdf"⟩ :=
  redact_document_fallback ".pdf" 3 ⟨false, "cannot open pdf"⟩ (Or.inl rfl) rfl

/-- C7.  Redaction never resizes the surface: the PDF applicator returns
one output page per input page (painting alters content only), and the
image applicator preserves the canvas dimensions for every entity set and
style. -/
theorem redaction_preserves_geometry (doc : PdfDoc) (entities : List Entity)
    (ids : List String) (customs : List CustomRedaction)
    (img : Canvas) (es : List Entity) (style : String) :
    (∃ outs stats, applyRedactionsToPdf (Except.ok doc) entities ids customs
        = Except.ok (outs, stats) ∧ outs.length = doc.pages.length) ∧
    (redactImage img es style).1.width = img.width ∧
    (redactImage img es style).1.height = img.height := by
  refine ⟨?_, ?_, ?_⟩
  · refine ⟨(applyPages (entities.filter (fun e => ids.contains e.id)) customs doc.pages 0).1,
      (applyPages (entities.filter (fun e => ids.contains e.id)) customs doc.pages 0).2, rfl, ?_⟩
    exact applyPages_length _ customs doc.pages 0
  · exact (imageFold_dims style es (img, 0, 0)).1
  · exact (imageFold_dims style es (img, 0, 0)).2

/-- C10.  Whenever `apply_redactions_to_pdf` returns normally, its
statistics satisfy `total_pages` = input page count and
`processed_pages + failed_pages = total_pages` (every page lands in
exactly one bucket); all four fields are `Nat` counters, hence
non-negative by type. -/
theorem apply_redactions_stats_invariant (doc : PdfDoc) (entities : List Entity)
    (ids : List String) (customs : List CustomRedaction) :
    ∃ outs stats, applyRedactionsToPdf (Except.ok doc) entities ids customs
        = Except.ok (outs, stats) ∧
      stats.totalPages = doc.pages.length ∧
      stats.processedPages + stats.failedPages = stats.totalPages ∧
      stats.processedPages ≤ stats.totalPages ∧
      stats.failedPages ≤ stats.totalPages := by
  obtain ⟨h1, h2⟩ := applyPages_stats (entities.filter (fun e => ids.contains e.id))
    customs doc.pages 0
  refine ⟨_, _, rfl, h1, by rw [h1]; exact h2, by omega, by omega⟩

/-- C8.  For one approved entity with nonempty stripped text on a
page-based document (all pages loadable), every occurrence of the literal
text on a page yields one painted region, and `total_redacted` counts all
painted regions across pages. -/
theorem entity_occurrence_region_count (doc : PdfDoc) (e : Entity)
    (ht : pyStrip e.text ≠ "")
    (hload : ∀ p ∈ doc.pages, p.loadFails = false) :
    ∃ outs stats, applyRedactionsToPdf (Except.ok doc) [e] [e.id] []
        = Except.ok (outs, stats) ∧
      outs.map OutPage.painted = doc.pages.map (fun p => occCount p (pyStrip e.text)) ∧
      stats.totalRedacted = (doc.pages.map (fun p => occCount p (pyStrip e.text))).sum := by
  have happ : ([e].filter (fun x => ([e.id] : List String).contains x.id)) = [e] := by
    simp [List.contains]
  obtain ⟨h1, h2⟩ := applyPages_single e ht doc.pages 0 hload
  exact ⟨_, _, by rw [applyRedactionsToPdf]; rw [happ], h1, h2⟩

/-- A page on which `"john@x.com"` occurs twice. -/
def pageW : PdfPage := ⟨[("john@x.com", 2)], false⟩

/-- A one-page document for the C8 witness. -/
def docW : PdfDoc := ⟨[pageW]⟩

/-- The single approved email entity for the C8 witness. -/
def entW : Entity := ⟨"e1", "john@x.com", "EMAIL", mkRat 95 100, 0, 10, "regex", none⟩

/-- C8 (witness).  One approved entity whose text occurs twice on one page:
two regions painted, `total_redacted = 2`. -/
theorem entity_occurrence_region_count_witness :
    ∃ outs stats, applyRedactionsToPdf (Except.ok docW) [entW] [entW.id] []
        = Except.ok (outs, stats) ∧
      outs.map OutPage.painted = [2] ∧ stats.totalRedacted = 2 := by
  obtain ⟨outs, stats, h1, h2, h3⟩ :=
    entity_occurrence_region_count docW entW (by decide) (by decide)
  refine ⟨outs, stats, h1, ?_, ?_⟩
  · rw [h2]; decide
  · rw [h3]; decide

/-- C9.  After every redaction pass the history holds at most 10 entries,
the just-appended entry is last, and the result is exactly a suffix of
`old ++ [new]` — entries are evicted only from the front, every retained
entry unchanged. -/
theorem redaction_history_bounded (old : List HistEntry) (e : HistEntry) :
    (updateHistory old e).length ≤ 10 ∧
    (updateHistory old e).getLast? = some e ∧
    updateHistory old e = (old ++ [e]).drop (old.length + 1 - 10) := by
  have hlen : (old ++ [e]).length = old.length + 1 := by simp
  unfold updateHistory
  by_cases h : (old ++ [e]).length > 10
  · rw [if_pos h]
    refine ⟨?_, ?_, ?_⟩
    · rw [List.length_drop]; omega
    · rw [hlen, List.drop_append_of_le_length (by omega)]
      exact List.getLast?_concat _
    · rw [hlen]
  · rw [if_neg h]
    refine ⟨?_, ?_, ?_⟩
    · omega
    · exact List.getLast?_concat _
    · have hz : old.length + 1 - 10 = 0 := by omega
      rw [hz, List.drop_zero]

end PiiRedactor
